import Mathlib

set_option maxRecDepth 8000

/-!
Verification of the GeoFrance geological-code resolution pipeline
(`src/pages/api/analyze-geology.ts`, current revision of the handler).

The TypeScript handler is shallowly embedded below:
* strings are Lean `String`s, with explicit models of the JavaScript
  operations used by the code (truthiness, `toLowerCase`, `includes`,
  `substring`, `trim`, `replace` of the two fence patterns, `indexOf`,
  `lastIndexOf`, and the two extraction regexes);
* `JSON.parse` is modelled by the executable `jsonParse` below on a
  standard JSON value type (numbers as rationals);
* the two network calls to the inference service are modelled by oracles
  (`Nat → AttemptResult` for the in-loop attempts, one `AttemptResult`
  for the no-image fallback);
* the handler's in-place mutation of `wmsData.rawResponse` is modelled by
  explicit state passing (`ExtractResult.wms` is the object after the
  extraction phase).
-/

namespace GeoFrance

/-! ### JavaScript string primitives -/

/-- Truthiness of an optional JavaScript string (`undefined` and `""` are
falsy, every non-empty string is truthy). -/
def jsTruthyStr : Option String → Bool
  | none => false
  | some s => s ≠ ""

/-- Model of `String.prototype.toLowerCase` on the alphabet relevant to the
handler: ASCII letters are lowered, and the accented capital of the French
markers is lowered as well; other characters are unchanged. -/
def jsLowerChar (c : Char) : Char :=
  if c = 'É' then 'é' else c.toLower

/-- Lower-case a character list, modelling `text.toLowerCase()`. -/
def jsLower (cs : List Char) : List Char := cs.map jsLowerChar

/-- Does `pat` occur as a prefix of some suffix of `cs`?  This models
`String.prototype.includes` (substring containment). -/
def containsPat (pat : List Char) : List Char → Bool
  | [] => pat.isPrefixOf ([] : List Char)
  | c :: cs => pat.isPrefixOf (c :: cs) || containsPat pat cs

/-- Model of `a.includes(b)` on Lean strings. -/
def jsIncludes (s pat : String) : Bool := containsPat pat.data s.data

/-- JavaScript whitespace characters handled by `trim` / `\s` (the common
set used by the handler's inputs). -/
def jsSpace (c : Char) : Bool :=
  c = ' ' || c = '\t' || c = '\n' || c = '\r' || c = '\x0b' || c = '\x0c'

/-- Model of `String.prototype.trim`. -/
def jsTrim (cs : List Char) : List Char :=
  ((cs.dropWhile jsSpace).reverse.dropWhile jsSpace).reverse

/-- Model of `s.substring(0, n)` (take the first `n` UTF-16 units; the
inputs of interest are plain text, where units and characters agree). -/
def jsSubstringTo (s : String) (n : Nat) : String := String.mk (s.data.take n)

/-! ### JSON values and `JSON.parse` -/

/-- JSON values as produced by `JSON.parse`.  Numbers are modelled as
rationals (every JSON numeral denotes a rational). -/
inductive Json where
  | null
  | bool (b : Bool)
  | num (q : ℚ)
  | str (s : String)
  | arr (elems : List Json)
  | obj (fields : List (String × Json))
  deriving Repr

/-- The double-quote character (U+0022). -/
def dquote : Char := Char.ofNat 34

/-- The backslash character (U+005C). -/
def bslash : Char := Char.ofNat 92

/-- The opening-brace character (U+007B). -/
def lbrace : Char := Char.ofNat 123

/-- The closing-brace character (U+007D). -/
def rbrace : Char := Char.ofNat 125

/-- JSON whitespace accepted between tokens. -/
def jsonWs (c : Char) : Bool :=
  c = ' ' || c = '\t' || c = '\n' || c = '\r'

/-- Skip JSON whitespace. -/
def skipWs (cs : List Char) : List Char := cs.dropWhile jsonWs

/-- Decode one JSON escape character. -/
def unescapeChar (e : Char) : Option Char :=
  if e = dquote then some dquote
  else if e = bslash then some bslash
  else if e = '/' then some '/'
  else if e = 'b' then some '\x08'
  else if e = 'f' then some '\x0c'
  else if e = 'n' then some '\n'
  else if e = 'r' then some '\r'
  else if e = 't' then some '\t'
  else none

/-- Decode a JSON string body (after the opening quote), handling the
standard escape sequences; returns the decoded characters and the rest of
the input after the closing quote. -/
def parseStringBody : List Char → Option (List Char × List Char)
  | [] => none
  | c :: rest =>
    if c = dquote then some ([], rest)
    else if c = bslash then
      match rest with
      | [] => none
      | e :: rest2 =>
        match unescapeChar e with
        | some u => (parseStringBody rest2).map (fun p => (u :: p.1, p.2))
        | none => none
    else (parseStringBody rest).map (fun p => (c :: p.1, p.2))

/-- Digit value of a character, if it is a decimal digit. -/
def digitVal (c : Char) : Option Nat :=
  if '0' ≤ c ∧ c ≤ '9' then some (c.toNat - '0'.toNat) else none

/-- Read a maximal run of decimal digits as a natural number together with
the number of digits read. -/
def readDigits : List Char → Nat → Nat → (Nat × Nat × List Char)
  | [], acc, k => (acc, k, [])
  | c :: cs, acc, k =>
    match digitVal c with
    | some d => readDigits cs (acc * 10 + d) (k + 1)
    | none => (acc, k, c :: cs)

/-- Parse a JSON numeral into a rational. -/
def parseNumber (cs : List Char) : Option (ℚ × List Char) :=
  let (neg, cs1) := match cs with
    | '-' :: t => (true, t)
    | _ => (false, cs)
  let (ip, ik, cs2) := readDigits cs1 0 0
  if ik = 0 then none else
  let (fp, fk, cs3) := match cs2 with
    | '.' :: t => readDigits t 0 0
    | _ => (0, 0, cs2)
  if cs2 ≠ cs3 ∧ fk = 0 then none else
  let (eneg, cs4) := match cs3 with
    | 'e' :: '-' :: t => (true, ('x' : Char) :: t)
    | 'E' :: '-' :: t => (true, ('x' : Char) :: t)
    | 'e' :: '+' :: t => (false, ('x' : Char) :: t)
    | 'E' :: '+' :: t => (false, ('x' : Char) :: t)
    | 'e' :: t => (false, ('x' : Char) :: t)
    | 'E' :: t => (false, ('x' : Char) :: t)
    | t => (false, t)
  let hasExp := cs3 ≠ cs4
  let (ev, ek, cs5) := match cs4 with
    | _ :: t => if hasExp then readDigits t 0 0 else (0, 0, cs4)
    | [] => (0, 0, cs4)
  if hasExp ∧ ek = 0 then none else
  let mantissa : ℚ := (ip : ℚ) + (fp : ℚ) / ((10 : ℚ) ^ fk)
  let signed : ℚ := if neg then -mantissa else mantissa
  let eexp : ℤ := if eneg then -(ev : ℤ) else (ev : ℤ)
  some (signed * (10 : ℚ) ^ eexp, if hasExp then cs5 else cs3)

mutual

/-- Fuel-indexed parser for a single JSON value. -/
def parseVal : Nat → List Char → Option (Json × List Char)
  | 0, _ => none
  | Nat.succ fuel, cs =>
    match skipWs cs with
    | [] => none
    | 'n' :: 'u' :: 'l' :: 'l' :: rest => some (Json.null, rest)
    | 't' :: 'r' :: 'u' :: 'e' :: rest => some (Json.bool true, rest)
    | 'f' :: 'a' :: 'l' :: 's' :: 'e' :: rest => some (Json.bool false, rest)
    | c :: rest =>
      if c = dquote then
        (parseStringBody rest).map (fun p => (Json.str (String.mk p.1), p.2))
      else if c = '[' then
        match skipWs rest with
        | ']' :: rest2 => some (Json.arr [], rest2)
        | other => (parseArrElems fuel other).map (fun p => (Json.arr p.1, p.2))
      else if c = lbrace then
        match skipWs rest with
        | d :: rest2 =>
          if d = rbrace then some (Json.obj [], rest2)
          else
            (parseObjFields fuel (d :: rest2)).map
              (fun p => (Json.obj p.1, p.2))
        | [] => none
      else (parseNumber (c :: rest)).map (fun p => (Json.num p.1, p.2))

/-- Fuel-indexed parser for the elements of a non-empty JSON array (after
the opening bracket and leading whitespace). -/
def parseArrElems : Nat → List Char → Option (List Json × List Char)
  | 0, _ => none
  | Nat.succ fuel, cs =>
    match parseVal fuel cs with
    | none => none
    | some (v, rest) =>
      match skipWs rest with
      | ',' :: rest2 =>
        (parseArrElems fuel rest2).map (fun p => (v :: p.1, p.2))
      | ']' :: rest2 => some ([v], rest2)
      | _ => none

/-- Fuel-indexed parser for the members of a non-empty JSON object (after
the opening brace and leading whitespace). -/
def parseObjFields : Nat → List Char → Option (List (String × Json) × List Char)
  | 0, _ => none
  | Nat.succ fuel, cs =>
    match skipWs cs with
    | c :: rest =>
      if c = dquote then
        match parseStringBody rest with
        | none => none
        | some (key, rest2) =>
          match skipWs rest2 with
          | ':' :: rest3 =>
            (match parseVal fuel rest3 with
             | none => none
             | some (v, rest4) =>
               match skipWs rest4 with
               | ',' :: rest5 =>
                 (parseObjFields fuel rest5).map
                   (fun p => ((String.mk key, v) :: p.1, p.2))
               | d :: rest5 =>
                 if d = rbrace then some ([(String.mk key, v)], rest5)
                 else none
               | [] => none)
          | _ => none
      else none
    | [] => none

end

/-- Model of `JSON.parse`: parse a whole string as one JSON value, with
nothing but whitespace allowed after it; `none` models a thrown
`SyntaxError`. -/
def jsonParse (s : String) : Option Json :=
  match parseVal (s.data.length + 1) s.data with
  | some (v, rest) => if skipWs rest = [] then some v else none
  | none => none

/-! ### JavaScript value semantics used by the extraction phase -/

/-- A JavaScript expression value: `none` is `undefined`, `some j` a JSON
value. -/
abbrev JsVal := Option Json

/-- JavaScript truthiness of a value. -/
def jsTruthy : JsVal → Bool
  | none => false
  | some Json.null => false
  | some (Json.bool b) => b
  | some (Json.num q) => q ≠ 0
  | some (Json.str s) => s ≠ ""
  | some (Json.arr _) => true
  | some (Json.obj _) => true

/-- Member access `j.k` on a (non-`undefined`) JavaScript value; accessing
a member of `null` throws a `TypeError` (`Except.error`). -/
def jsMember : Json → String → Except Unit JsVal
  | Json.null, _ => Except.error ()
  | Json.obj fs, k => Except.ok (fs.lookup k)
  | Json.arr xs, k =>
    Except.ok (if k = "length" then some (Json.num xs.length) else none)
  | Json.str s, k =>
    Except.ok (if k = "length" then some (Json.num s.length) else none)
  | _, _ => Except.ok none

/-- Member access `v.k` on a possibly-`undefined` value. -/
def jsMemberV : JsVal → String → Except Unit JsVal
  | none, _ => Except.error ()
  | some j, k => jsMember j k

/-- Index access `v[0]`. -/
def jsIndexZero : JsVal → Except Unit JsVal
  | none => Except.error ()
  | some Json.null => Except.error ()
  | some (Json.arr xs) => Except.ok xs.head?
  | some (Json.str s) =>
    Except.ok ((s.data.head?).map fun c => Json.str (String.mk [c]))
  | some (Json.obj fs) => Except.ok (fs.lookup "0")
  | some _ => Except.ok none

/-- The `length` member of a non-`null` value, as read by
`jsonData.features.length`. -/
def jsLengthVal : Json → JsVal
  | Json.arr xs => some (Json.num xs.length)
  | Json.str s => some (Json.num s.length)
  | Json.obj fs => fs.lookup "length"
  | _ => none

/-- JavaScript comparison `v > 0` as used on a `length` read (`undefined`
compares false). -/
def jsGtZero : JsVal → Bool
  | some (Json.num q) => q > 0
  | _ => false

/-- Evaluate a JavaScript `||` alias chain `props.k1 || props.k2 || … || ""`
over the given keys, with the source's final `|| ""` default; throws when
`props` is `undefined` or `null`. -/
def jsOrChain (props : JsVal) : List String → Except Unit JsVal
  | [] => Except.ok (some (Json.str ""))
  | k :: ks =>
    match jsMemberV props k with
    | Except.error e => Except.error e
    | Except.ok v => if jsTruthy v then Except.ok v else jsOrChain props ks

/-! ### The evidence extractor (`analyze-geology.ts` lines 202–241) -/

/-- The `isInvalidBrgm` validation helper (lines 206–213): an empty text is
invalid, and so is any text whose lower-casing contains one of the four
configured BRGM invalid-layer markers. -/
def isInvalidBrgm (text : String) : Bool :=
  if text = "" then true
  else
    let lower := jsLower text.data
    containsPat "layernotdefined".data lower ||
    containsPat "non défini".data lower ||
    containsPat "sans géométrie".data lower ||
    containsPat "inconnu".data lower

/-- The guarded assignment `if (temp && !isInvalidBrgm(temp)) target = temp`
on a JavaScript value: falsy values assign nothing, truthy strings are
marker-checked, and calling `isInvalidBrgm` (hence `toLowerCase`) on a
truthy non-string throws. -/
def checkAssign (temp : JsVal) : Except Unit (Option String) :=
  if jsTruthy temp then
    match temp with
    | some (Json.str s) =>
      Except.ok (if isInvalidBrgm s then none else some s)
    | _ => Except.error ()
  else Except.ok none

/-- The `try` block of the JSON extraction path (lines 221–231), run on the
successfully parsed `jsonData`.  The result carries the
`(extractedCode, extractedDescription)` state; `Except.error` carries the
state at the point where a `TypeError` was thrown (caught by the handler,
which then falls back to text extraction). -/
def jsonBranch (j : Json) : Except (String × String) (String × String) :=
  match jsMember j "features" with
  | Except.error _ => Except.error ("", "")
  | Except.ok features =>
    let cond := match features with
      | some f => jsTruthy (some f) && jsGtZero (jsLengthVal f)
      | none => false
    if cond then
      match jsIndexZero features with
      | Except.error _ => Except.error ("", "")
      | Except.ok f0 =>
        match jsMemberV f0 "properties" with
        | Except.error _ => Except.error ("", "")
        | Except.ok props =>
          match jsOrChain props ["NOTATION", "CODE", "notation", "code"] with
          | Except.error _ => Except.error ("", "")
          | Except.ok tempCode =>
            match jsOrChain props ["DESCR", "DESCRIPTION", "descr"] with
            | Except.error _ => Except.error ("", "")
            | Except.ok tempDesc =>
              match checkAssign tempCode with
              | Except.error _ => Except.error ("", "")
              | Except.ok codeOpt =>
                let ec := codeOpt.getD ""
                match checkAssign tempDesc with
                | Except.error _ => Except.error (ec, "")
                | Except.ok descOpt => Except.ok (ec, descOpt.getD "")
    else Except.ok ("", "")

/-- Character class `[A-Za-z0-9\-_]` of the extraction regexes. -/
def wordChar (c : Char) : Bool :=
  ('A' ≤ c && c ≤ 'Z') || ('a' ≤ c && c ≤ 'z') ||
  ('0' ≤ c && c ≤ '9') || c = '-' || c = '_'

/-- Character class `[:\s=]` of the extraction regexes. -/
def sepClass (c : Char) : Bool := c = ':' || c = '=' || jsSpace c

/-- A single-quote character (U+0027). -/
def squote : Char := Char.ofNat 39

/-- Try to strip a case-insensitive occurrence of `key` (given in lower
case) from the front of the text. -/
def stripKeyCI : List Char → List Char → Option (List Char)
  | [], cs => some cs
  | _ :: _, [] => none
  | k :: ks, c :: cs => if jsLowerChar c = k then stripKeyCI ks cs else none

/-- After the key has matched, match `[:\s=]+['"]?([A-Za-z0-9\-_]+)` and
return the capture group.  The three character classes are pairwise
disjoint, so greedy matching coincides with the regex engine's
backtracking search. -/
def matchAfterKey (cs : List Char) : Option (List Char) :=
  let seps := cs.takeWhile sepClass
  let rest := cs.dropWhile sepClass
  if seps.isEmpty then none
  else
    let rest2 := match rest with
      | c :: t => if c = squote || c = dquote then t else c :: t
      | [] => []
    let cap := rest2.takeWhile wordChar
    if cap.isEmpty then none else some cap

/-- Leftmost match of `KEY[:\s=]+['"]?([A-Za-z0-9\-_]+)` (case-insensitive)
over the text, returning the capture group — the model of
`rawResponse.match(...)` for the two extraction regexes. -/
def findKeyCapture (key : List Char) : List Char → Option (List Char)
  | [] => none
  | c :: cs =>
    match stripKeyCI key (c :: cs) with
    | some rest =>
      match matchAfterKey rest with
      | some cap => some cap
      | none => findKeyCapture key cs
    | none => findKeyCapture key cs

/-- The `catch` block of the extraction path (lines 232–239): regex
extraction over the raw text, applied on top of the state `st` reached in
the `try` block. -/
def textBranch (raw : String) (st : String × String) : String × String :=
  let nm := findKeyCapture "notation".data raw.data
  let cm := findKeyCapture "code".data raw.data
  match nm with
  | some cap =>
    if isInvalidBrgm (String.mk cap) = false then (String.mk cap, st.2)
    else
      match cm with
      | some cap2 =>
        if isInvalidBrgm (String.mk cap2) = false then (String.mk cap2, st.2)
        else st
      | none => st
  | none =>
    match cm with
    | some cap2 =>
      if isInvalidBrgm (String.mk cap2) = false then (String.mk cap2, st.2)
      else st
    | none => st

/-- The `wmsData` request payload (`WMSData` in `types.ts`). -/
structure WMSData where
  rawResponse : String
  mapImageBase64 : Option String := none
  manualCode : Option String := none
  deriving DecidableEq, Repr

/-- Result of the extraction phase: the two extracted strings plus the
`wmsData` object after the phase (the handler mutates
`wmsData.rawResponse` in place; the mutation is modelled by returning the
updated object). -/
structure ExtractResult where
  extractedCode : String
  extractedDescription : String
  wms : Option WMSData
  deriving DecidableEq, Repr

/-- The whole extraction phase (lines 215–241). -/
def extractEvidence (wmsData : Option WMSData) : ExtractResult :=
  match wmsData with
  | none => ⟨"", "", none⟩
  | some w =>
    if w.rawResponse ≠ "" then
      if isInvalidBrgm w.rawResponse then
        ⟨"", "", some { w with rawResponse := "" }⟩
      else
        let st :=
          match jsonParse w.rawResponse with
          | none => textBranch w.rawResponse ("", "")
          | some j =>
            match jsonBranch j with
            | Except.ok s => s
            | Except.error s => textBranch w.rawResponse s
        ⟨st.1, st.2, some w⟩
    else ⟨"", "", some w⟩

/-! ### Case selection and the evidentiary brief (lines 243–298) -/

/-- The four resolution cases of the prompt-building `if`/`else` chain. -/
inductive ResolutionCase where
  | manualOverride (code : String)
  | databaseAuthoritative (code descr : String)
  | rawTextOnly (raw : String)
  | noEvidence
  deriving DecidableEq, Repr

/-- Case selection: the condition chain
`if (manualCode) … else if (extractedCode) … else if (wmsData?.rawResponse) … else …`,
evaluated on the post-extraction state. -/
def selectCase (wms : Option WMSData)
    (extractedCode extractedDescription : String) : ResolutionCase :=
  let manualCode := wms.bind WMSData.manualCode
  if jsTruthyStr manualCode then
    ResolutionCase.manualOverride (manualCode.getD "")
  else if extractedCode ≠ "" then
    ResolutionCase.databaseAuthoritative extractedCode extractedDescription
  else if jsTruthyStr (wms.map WMSData.rawResponse) then
    ResolutionCase.rawTextOnly ((wms.map WMSData.rawResponse).getD "")
  else
    ResolutionCase.noEvidence

/-- The resolution case reached by a request, from the original payload. -/
def resolutionOf (wmsData : Option WMSData) : ResolutionCase :=
  let ext := extractEvidence wmsData
  selectCase ext.wms ext.extractedCode ext.extractedDescription

/-- The `wmsInfo` evidentiary brief assigned in each branch of the chain
(lines 253–254, 261, 289, and the empty default). -/
def wmsInfoOf : ResolutionCase → String → String → String
  | ResolutionCase.manualOverride m, ec, ed =>
    "USER_INPUT: The user has manually identified the code as \"" ++ m ++
    "\".\n      DB_CONTEXT: The database at this location had \"" ++ ec ++
    "\" (\"" ++ ed ++ "\")."
  | ResolutionCase.databaseAuthoritative c d, _, _ =>
    "DB_EXACT_REFERENCE: The BRGM database identifies the exact polygon as code \"" ++
    c ++ "\" (" ++ d ++ ")."
  | ResolutionCase.rawTextOnly raw, _, _ =>
    "DB_HINT: Database raw response: " ++ jsSubstringTo raw 500
  | ResolutionCase.noEvidence, _, _ => ""

/-! ### The inference client (lines 334–385) -/

/-- Outcome of one `ai.models.generateContent` call: either a reply whose
`.text` is `none` (undefined) or a string, or a thrown error carrying
`err.message`. -/
inductive AttemptResult where
  | ok (text : Option String)
  | err (msg : String)
  deriving DecidableEq, Repr

/-- The quota check `err.message.includes('429') || err.message.includes('quota')`. -/
def isQuotaMsg (m : String) : Bool := jsIncludes m "429" || jsIncludes m "quota"

/-- The overload check `err.message.includes('503') || err.message.includes('Overloaded')`. -/
def isOverloadMsg (m : String) : Bool :=
  jsIncludes m "503" || jsIncludes m "Overloaded"

/-- The canned quota-exceeded message thrown on a rate-limit signal (line 354). -/
def quotaErrorMessage : String :=
  "Le quota de l\x27API Gemini 2.5 Flash est dépassé (Limité à 5 requêtes/min). Veuillez attendre 20 secondes avant de réessayer."

/-- The canned overload message thrown after the attempt budget (line 360). -/
def overloadedMessage : String :=
  "Le modèle IA (Gemini 2.5) est actuellement surchargé. Veuillez réessayer dans quelques instants."

/-- The empty-reply error message (line 384). -/
def emptyResponseMessage : String := "Réponse vide de l\x27IA"

/-- The JSON-parse-failure error message (line 400). -/
def invalidFormatMessage : String := "Format de réponse invalide"

/-- Exit state of the `while (attempts < maxAttempts)` loop: a truthy reply
text, loop exhaustion without truthy text, or a thrown error.  Each
variant records the number of attempts made and the backoff delays (in
milliseconds) waited between attempts. -/
inductive LoopExit where
  | gotText (text : String) (attemptsMade : Nat) (delays : List Nat)
  | noText (attemptsMade : Nat) (delays : List Nat)
  | threw (msg : String) (attemptsMade : Nat) (delays : List Nat)
  deriving DecidableEq, Repr

/-- One unrolling of the retry loop: `fuel` is `maxAttempts - attempts`,
`attempts` the attempts already made, `delays` the backoff waits so far.
The loop body increments `attempts`, calls the service, breaks on truthy
text, rethrows quota errors immediately with the canned message, converts
an overload error on the final attempt to the canned overload message,
rethrows any other final-attempt error verbatim, and otherwise waits
`2000 * attempts` ms and retries. -/
def loopGo (call : Nat → AttemptResult) :
    Nat → Nat → List Nat → LoopExit
  | 0, attempts, delays => LoopExit.noText attempts delays
  | Nat.succ fuel, attempts, delays =>
    let att := attempts + 1
    match call att with
    | AttemptResult.ok t =>
      if jsTruthyStr t then LoopExit.gotText (t.getD "") att delays
      else loopGo call fuel att delays
    | AttemptResult.err m =>
      if isQuotaMsg m then LoopExit.threw quotaErrorMessage att delays
      else if fuel = 0 then
        if isOverloadMsg m then LoopExit.threw overloadedMessage att delays
        else LoopExit.threw m att delays
      else loopGo call fuel att (delays ++ [2000 * att])

/-- The retry loop with the source's `maxAttempts = 3`. -/
def geminiRetryLoop (call : Nat → AttemptResult) : LoopExit :=
  loopGo call 3 0 []

/-- Result of the whole inference phase, counting every `generateContent`
call made (loop attempts plus the optional no-image fallback). -/
inductive InferenceResult where
  | success (text : String) (totalCalls : Nat) (delays : List Nat)
  | failure (msg : String) (totalCalls : Nat) (delays : List Nat)
  deriving DecidableEq, Repr

/-- The inference phase (lines 334–385): the retry loop, then — only when
the loop ended without truthy text — one fallback call omitting the image,
whose own error is swallowed; a still-missing text throws the
empty-response error. -/
def runInference (call : Nat → AttemptResult)
    (fallbackCall : AttemptResult) : InferenceResult :=
  match geminiRetryLoop call with
  | LoopExit.gotText t a ds => InferenceResult.success t a ds
  | LoopExit.threw m a ds => InferenceResult.failure m a ds
  | LoopExit.noText a ds =>
    let t2 : Option String :=
      match fallbackCall with
      | AttemptResult.ok t => t
      | AttemptResult.err _ => none
    if jsTruthyStr t2 then InferenceResult.success (t2.getD "") (a + 1) ds
    else InferenceResult.failure emptyResponseMessage (a + 1) ds

/-! ### The result normalizer (lines 387–401) -/

/-- The global replacement of the pattern `​```json\n?` (line 388, first
`replace`): each occurrence of the fence marker, together with a directly
following newline when present, is removed, scanning left to right. -/
def stripJsonFences : List Char → List Char
  | c1 :: c2 :: c3 :: c4 :: c5 :: c6 :: c7 :: c8 :: rest =>
    if [c1, c2, c3, c4, c5, c6, c7] = "```json".data then
      if c8 = '\n' then stripJsonFences rest
      else stripJsonFences (c8 :: rest)
    else c1 :: stripJsonFences (c2 :: c3 :: c4 :: c5 :: c6 :: c7 :: c8 :: rest)
  | [c1, c2, c3, c4, c5, c6, c7] =>
    if [c1, c2, c3, c4, c5, c6, c7] = "```json".data then []
    else [c1, c2, c3, c4, c5, c6, c7]
  | cs => cs

/-- The global replacement of the bare fence marker (line 388, second
`replace`). -/
def stripTicks : List Char → List Char
  | c1 :: c2 :: c3 :: rest =>
    if [c1, c2, c3] = "```".data then stripTicks rest
    else c1 :: stripTicks (c2 :: c3 :: rest)
  | cs => cs

/-- Index of the first occurrence of a character (`indexOf`). -/
def firstIdxOf (c : Char) (cs : List Char) : Option Nat :=
  cs.findIdx? (· = c)

/-- Index of the last occurrence of a character (`lastIndexOf`). -/
def lastIdxOf (c : Char) (cs : List Char) : Option Nat :=
  match cs.reverse.findIdx? (· = c) with
  | some i => some (cs.length - 1 - i)
  | none => none

/-- JavaScript `String.prototype.substring(a, b)`: both arguments are
clamped to the length and swapped when out of order. -/
def jsSubstring (cs : List Char) (a b : Nat) : List Char :=
  let n := cs.length
  let a2 := min a n
  let b2 := min b n
  ((cs.drop (min a2 b2)).take (max a2 b2 - min a2 b2))

/-- Lines 388–393: strip the fence markers, trim, and — when both braces
occur — slice from the first `\x7b` to the last `\x7d`. -/
def cleanReply (t : String) : String :=
  let cs := jsTrim (stripTicks (stripJsonFences t.data))
  match firstIdxOf lbrace cs, lastIdxOf rbrace cs with
  | some i, some j => String.mk (jsSubstring cs i (j + 1))
  | _, _ => String.mk cs

/-- Lines 387–401: clean the reply and parse it; a parse failure throws the
invalid-format error. -/
def normalizeReply (t : String) : Except String Json :=
  match jsonParse (cleanReply t) with
  | some d => Except.ok d
  | none => Except.error invalidFormatMessage

/-! ### Record synthesis and the whole pipeline (lines 403–416) -/

/-- Set a field of a JavaScript object literal, as the trailing
`coords:`/`sources:` entries of the spread `{...data, coords, sources}`
do: any same-named field of `data` is overridden. -/
def setField (fs : List (String × Json)) (k : String) (v : Json) :
    List (String × Json) :=
  fs.filter (fun p => p.1 ≠ k) ++ [(k, v)]

/-- The enumerable fields contributed by `{...data}` (the parsed replies of
interest are objects; other JSON values contribute no string-keyed
fields). -/
def fieldsOf : Json → List (String × Json)
  | Json.obj fs => fs
  | _ => []

/-- The response object `{...data, coords: {lat, lng}, sources: []}`
(lines 409–413). -/
def buildResult (data : Json) (lat lng : ℚ) : List (String × Json) :=
  setField
    (setField (fieldsOf data) "coords"
      (Json.obj [("lat", Json.num lat), ("lng", Json.num lng)]))
    "sources" (Json.arr [])

/-- The handler pipeline after method/key checks: extraction, case
selection and brief construction, the inference phase (modelled by the two
oracles), normalization, and record synthesis.  `Except.error` is the
user-facing error message of the 500 response; `Except.ok` the 200
response body. -/
def handlerPipeline (call : Nat → AttemptResult) (fallbackCall : AttemptResult)
    (lat lng : ℚ) (wmsData : Option WMSData) :
    Except String (List (String × Json)) :=
  let ext := extractEvidence wmsData
  let _rc := selectCase ext.wms ext.extractedCode ext.extractedDescription
  match runInference call fallbackCall with
  | InferenceResult.failure m _ _ => Except.error m
  | InferenceResult.success t _ _ =>
    match normalizeReply t with
    | Except.error m => Except.error m
    | Except.ok data => Except.ok (buildResult data lat lng)

/-! ### Definitions supporting the claim statements -/

/-- Index of the active resolution case
(0 = manual, 1 = database, 2 = raw text, 3 = none). -/
def caseIndex : ResolutionCase → Fin 4
  | ResolutionCase.manualOverride _ => 0
  | ResolutionCase.databaseAuthoritative _ _ => 1
  | ResolutionCase.rawTextOnly _ => 2
  | ResolutionCase.noEvidence => 3

/-- Is the manual-override case active? -/
def isManualCase : ResolutionCase → Bool
  | ResolutionCase.manualOverride _ => true
  | _ => false

/-- Is the database-authoritative case active? -/
def isDatabaseCase : ResolutionCase → Bool
  | ResolutionCase.databaseAuthoritative _ _ => true
  | _ => false

/-- Is the raw-text-only case active? -/
def isRawTextCase : ResolutionCase → Bool
  | ResolutionCase.rawTextOnly _ => true
  | _ => false

/-- Is the no-evidence case active? -/
def isNoEvidenceCase : ResolutionCase → Bool
  | ResolutionCase.noEvidence => true
  | _ => false

/-- Modelled from the spec: the fixed priority table over the three
booleans (manualCode present?, extracted code valid?, rawText present?),
in the order manual > parsed-database > raw-text > none. -/
def specCasePriority (manualPresent extractedValid rawPresent : Bool) :
    Fin 4 :=
  if manualPresent then 0
  else if extractedValid then 1
  else if rawPresent then 2
  else 3

/-- Modelled from the spec: the invalid-layer marker set the spec names
("layer not defined", "undefined", "no geometry", "unknown"). -/
def specInvalidMarkers : List String :=
  ["layer not defined", "undefined", "no geometry", "unknown"]

/-- Modelled from the spec: case-insensitive substring match of `rawText`
against the spec's marker set. -/
def specMatchesInvalid (raw : String) : Bool :=
  specInvalidMarkers.any (fun m => containsPat m.data (jsLower raw.data))

/-- The backtick character (U+0060). -/
def btick : Char := Char.ofNat 96

/-- Attempts made when the retry loop exited. -/
def LoopExit.attemptsMade : LoopExit → Nat
  | LoopExit.gotText _ a _ => a
  | LoopExit.noText a _ => a
  | LoopExit.threw _ a _ => a

/-- Total `generateContent` calls made by the inference phase. -/
def InferenceResult.calls : InferenceResult → Nat
  | InferenceResult.success _ c _ => c
  | InferenceResult.failure _ c _ => c

/-- The `(extractedCode, extractedDescription)` state carried by either
side of the JSON-branch result. -/
def exceptState : Except (String × String) (String × String) → String × String
  | Except.ok st => st
  | Except.error st => st

/-- Both components of an extraction state, when non-empty, pass the
invalid-marker re-check. -/
def pairInv (st : String × String) : Prop :=
  (st.1 ≠ "" → isInvalidBrgm st.1 = false) ∧
  (st.2 ≠ "" → isInvalidBrgm st.2 = false)

/-- A 501-character raw response, used to exercise truncation. -/
def longRaw : String := String.mk (List.replicate 501 'a')

/-! ### C1 — case selection is total, priority-ordered, exactly one case -/

/-- Claim C1: resolution-case selection is a total pure function of the
three booleans (manualCode present?, extracted code valid?, rawText
present?): for every input exactly one of the four cases is active, and
the selected case follows the fixed priority order
manual > parsed-database > raw-text > none, manual dominating. -/
theorem c1_case_selection_total_and_priority_ordered
    (wms : Option WMSData) (ec ed : String) :
    ((if isManualCase (selectCase wms ec ed) then 1 else 0) +
     (if isDatabaseCase (selectCase wms ec ed) then 1 else 0) +
     (if isRawTextCase (selectCase wms ec ed) then 1 else 0) +
     (if isNoEvidenceCase (selectCase wms ec ed) then 1 else 0) = 1) ∧
    caseIndex (selectCase wms ec ed) =
      specCasePriority (jsTruthyStr (wms.bind WMSData.manualCode))
        (decide (ec ≠ "")) (jsTruthyStr (wms.map WMSData.rawResponse)) := by
  unfold selectCase specCasePriority
  by_cases h1 : jsTruthyStr (wms.bind WMSData.manualCode) <;>
    by_cases h2 : ec ≠ "" <;>
      by_cases h3 : jsTruthyStr (wms.map WMSData.rawResponse) <;>
        simp [h1, h2, h3, caseIndex, isManualCase, isDatabaseCase,
          isRawTextCase, isNoEvidenceCase]

/-! ### C9 — extraction is total but clears `rawResponse` in place -/

/-- Claim C9 (amended): extraction is a total function (absence of a code
is an empty `extractedCode`, never an error), but it is not free of side
effects on its input: the only mutation is that `rawResponse` is cleared
to the empty string when it matches an invalid-layer marker; `manualCode`
and the image snapshot are never altered, and a `None` evidence input
stays `None`. -/
theorem c9_extraction_mutates_only_rawResponse (w : WMSData) :
    ∃ w2 : WMSData,
      (extractEvidence (some w)).wms = some w2 ∧
      w2.manualCode = w.manualCode ∧
      w2.mapImageBase64 = w.mapImageBase64 ∧
      (w2 = w ∨
        (isInvalidBrgm w.rawResponse = true ∧ w2.rawResponse = "")) ∧
      (extractEvidence none).wms = none := by
  by_cases h1 : w.rawResponse = ""
  · refine ⟨w, ?_, rfl, rfl, Or.inl rfl, rfl⟩
    simp [extractEvidence, h1]
  · by_cases h2 : isInvalidBrgm w.rawResponse
    · refine ⟨{ w with rawResponse := "" }, ?_, rfl, rfl, Or.inr ⟨h2, rfl⟩, rfl⟩
      simp [extractEvidence, h1, h2]
    · refine ⟨w, ?_, rfl, rfl, Or.inl rfl, rfl⟩
      simp only [extractEvidence, h1, h2]
      simp [h1, h2]

/-- Claim C9 counterexample: on the invalid-marker input `"inconnu"` the
extractor does change its input — `rawResponse` is cleared — so the
claimed absence of side effects on the input evidence is false. -/
theorem c9_counterexample_input_mutated :
    ¬ ((extractEvidence (some (WMSData.mk "inconnu" none none))).wms =
        some (WMSData.mk "inconnu" none none)) := by decide

/-! ### C2 — invalid-marker filtering -/

theorem checkAssign_marker_free (t : JsVal) (s : String)
    (h : checkAssign t = Except.ok (some s)) : isInvalidBrgm s = false := by
  unfold checkAssign at h
  split_ifs at h
  · split at h
    · next s2 =>
      split_ifs at h with hmk
      · simp at h
      · simp at h
        simpa [h] using hmk
    all_goals simp_all
  · simp at h

theorem assignPair_inv (tc td : JsVal) :
    pairInv (exceptState
      (match checkAssign tc with
       | Except.error _ => Except.error (("" : String), ("" : String))
       | Except.ok codeOpt =>
         match checkAssign td with
         | Except.error _ => Except.error (codeOpt.getD "", "")
         | Except.ok descOpt => Except.ok (codeOpt.getD "", descOpt.getD ""))) := by
  cases hca : checkAssign tc with
  | error e => exact ⟨fun h => absurd rfl h, fun h => absurd rfl h⟩
  | ok codeOpt =>
    have hcode : codeOpt.getD "" ≠ "" → isInvalidBrgm (codeOpt.getD "") = false := by
      intro h
      cases codeOpt with
      | none => simp at h
      | some s => exact checkAssign_marker_free tc s hca
    cases hcd : checkAssign td with
    | error e => exact ⟨hcode, fun h => absurd rfl h⟩
    | ok descOpt =>
      have hdesc : descOpt.getD "" ≠ "" → isInvalidBrgm (descOpt.getD "") = false := by
        intro h
        cases descOpt with
        | none => simp at h
        | some s => exact checkAssign_marker_free td s hcd
      exact ⟨hcode, hdesc⟩

theorem jsonBranch_state_inv (j : Json) : pairInv (exceptState (jsonBranch j)) := by
  have triv : pairInv ("", "") := ⟨fun h => absurd rfl h, fun h => absurd rfl h⟩
  unfold jsonBranch
  dsimp only
  split
  · exact triv
  · split_ifs
    · split
      · exact triv
      · split
        · exact triv
        · split
          · exact triv
          · split
            · exact triv
            · exact assignPair_inv _ _
    · exact triv

theorem textBranch_state_inv (raw : String) (st : String × String)
    (h : pairInv st) : pairInv (textBranch raw st) := by
  unfold textBranch
  dsimp only
  split
  · split_ifs with hv
    · exact ⟨fun _ => hv, h.2⟩
    · split
      · split_ifs with hv2
        · exact ⟨fun _ => hv2, h.2⟩
        · exact h
      · exact h
  · split
    · split_ifs with hv2
      · exact ⟨fun _ => hv2, h.2⟩
      · exact h
    · exact h

theorem extractEvidence_state_inv (v : Option WMSData) :
    pairInv ((extractEvidence v).extractedCode,
      (extractEvidence v).extractedDescription) := by
  have triv : pairInv ("", "") := by
    constructor <;> intro h <;> simp at h
  cases v with
  | none => exact triv
  | some w =>
    unfold extractEvidence
    dsimp only
    split_ifs with h1 h2
    · exact triv
    · cases hp : jsonParse w.rawResponse with
      | none =>
        simpa [hp] using textBranch_state_inv w.rawResponse ("", "") triv
      | some j =>
        have hj := jsonBranch_state_inv j
        cases hb : jsonBranch j with
        | ok s =>
          simp only [hp, hb]
          simpa [hb, exceptState] using hj
        | error s =>
          simp only [hp, hb]
          exact textBranch_state_inv w.rawResponse s
            (by simpa [hb, exceptState] using hj)
    · exact triv

/-- Claim C2 counterexample: `"undefined"` matches the spec's configured
marker set, yet the extractor does not discard it — the raw evidence
survives unchanged and is passed downstream as the raw-text-only case. -/
theorem c2_counterexample_spec_marker_not_discarded :
    specMatchesInvalid "undefined" = true ∧
    (extractEvidence (some (WMSData.mk "undefined" none none))).wms =
      some (WMSData.mk "undefined" none none) ∧
    resolutionOf (some (WMSData.mk "undefined" none none)) =
      ResolutionCase.rawTextOnly "undefined" := by decide

/-- Claim C2 (amended): the marker set actually configured is
`"layernotdefined"`, `"non défini"`, `"sans géométrie"`, `"inconnu"`
(case-insensitive substrings).  For every rawText matching one of those
markers, extraction yields no code and no description, the raw evidence is
discarded entirely (cleared, hence not passed downstream: without a manual
code the resolution falls to the no-evidence case), and every value
extracted from the JSON feature bag or the text fallback is itself
re-checked against the marker set before acceptance. -/
theorem c2_invalid_marker_filtering (w : WMSData)
    (hne : w.rawResponse ≠ "") (hinv : isInvalidBrgm w.rawResponse = true) :
    (extractEvidence (some w)).extractedCode = "" ∧
    (extractEvidence (some w)).extractedDescription = "" ∧
    (extractEvidence (some w)).wms = some { w with rawResponse := "" } ∧
    (w.manualCode = none →
      resolutionOf (some w) = ResolutionCase.noEvidence) ∧
    (∀ v : Option WMSData,
      ((extractEvidence v).extractedCode ≠ "" →
        isInvalidBrgm (extractEvidence v).extractedCode = false) ∧
      ((extractEvidence v).extractedDescription ≠ "" →
        isInvalidBrgm (extractEvidence v).extractedDescription = false)) := by
  have hext : extractEvidence (some w) =
      ⟨"", "", some { w with rawResponse := "" }⟩ := by
    simp [extractEvidence, hne, hinv]
  refine ⟨by simp [hext], by simp [hext], by simp [hext], ?_, ?_⟩
  · intro hmc
    simp [resolutionOf, hext, selectCase, hmc, jsTruthyStr]
  · intro v
    exact extractEvidence_state_inv v

/-- Claim C2 witness: the amended theorem applied to the concrete
invalid-marker input `"inconnu"`. -/
theorem c2_invalid_marker_filtering_witness :
    (extractEvidence (some (WMSData.mk "inconnu" none none))).extractedCode = "" ∧
    (extractEvidence (some (WMSData.mk "inconnu" none none))).wms =
      some (WMSData.mk "" none none) ∧
    resolutionOf (some (WMSData.mk "inconnu" none none)) =
      ResolutionCase.noEvidence := by
  have h := c2_invalid_marker_filtering (WMSData.mk "inconnu" none none)
    (by decide) (by decide)
  exact ⟨h.1, h.2.2.1, h.2.2.2.1 rfl⟩

/-! ### C10 — raw-text brief truncation to 500 characters -/

/-- Claim C10: in the raw-text-only case the evidentiary brief contains at
most the first 500 characters of `rawText`: the brief equals the fixed
header followed by the 500-character prefix, it is unchanged when the
rawText is replaced by that prefix (content beyond 500 characters is
silently dropped), and its total length is bounded by the header length
plus 500. -/
theorem c10_rawtext_brief_truncated_to_500 (w : WMSData)
    (raw ec ed : String)
    (h : resolutionOf (some w) = ResolutionCase.rawTextOnly raw) :
    wmsInfoOf (resolutionOf (some w)) ec ed =
      "DB_HINT: Database raw response: " ++ String.mk (raw.data.take 500) ∧
    wmsInfoOf (resolutionOf (some w)) ec ed =
      wmsInfoOf (ResolutionCase.rawTextOnly
        (String.mk (raw.data.take 500))) ec ed ∧
    (wmsInfoOf (resolutionOf (some w)) ec ed).length ≤ 32 + 500 := by
  rw [h]
  refine ⟨rfl, ?_, ?_⟩
  · unfold wmsInfoOf jsSubstringTo
    dsimp only
    rw [List.take_take, Nat.min_self]
  · unfold wmsInfoOf jsSubstringTo
    dsimp only
    rw [String.length_append]
    have h1 : ("DB_HINT: Database raw response: " : String).length = 32 := rfl
    have h2 : (String.mk (raw.data.take 500)).length ≤ 500 :=
      List.length_take_le 500 raw.data
    omega

/-- Claim C10 witness: the theorem applied to a concrete 501-character raw
response, whose brief drops the final character. -/
theorem c10_rawtext_brief_truncated_to_500_witness :
    wmsInfoOf (resolutionOf (some (WMSData.mk longRaw none none))) "" "" =
      "DB_HINT: Database raw response: " ++
        String.mk (List.replicate 500 'a') ∧
    (wmsInfoOf (resolutionOf (some (WMSData.mk longRaw none none))) "" "").length ≤
      532 := by
  have hres : resolutionOf (some (WMSData.mk longRaw none none)) =
      ResolutionCase.rawTextOnly longRaw := by decide
  have h := c10_rawtext_brief_truncated_to_500 (WMSData.mk longRaw none none)
    longRaw "" "" hres
  refine ⟨?_, h.2.2⟩
  rw [h.1]
  have : longRaw.data.take 500 = List.replicate 500 'a' := by decide
  rw [this]

/-! ### C5 — quota errors short-circuit the retry loop -/

/-- Claim C5: whenever an attempt fails with a quota signal (message
containing "429" or "quota"), the loop throws the canned user-actionable
wait-time message at once, with no further attempts and no further
backoff; in particular a first-attempt quota failure makes the whole
inference phase fail immediately after exactly one call, with no fallback
call. -/
theorem c5_quota_error_short_circuits (call : Nat → AttemptResult)
    (fb : AttemptResult) (fuel attempts : Nat) (ds : List Nat) (m : String)
    (hc : call (attempts + 1) = AttemptResult.err m)
    (hq : isQuotaMsg m = true) :
    loopGo call (fuel + 1) attempts ds =
      LoopExit.threw quotaErrorMessage (attempts + 1) ds ∧
    (call 1 = AttemptResult.err m →
      runInference call fb =
        InferenceResult.failure quotaErrorMessage 1 []) := by
  constructor
  · simp [loopGo, hc, hq]
  · intro h1
    simp [runInference, geminiRetryLoop, loopGo, h1, hq]

/-- Claim C5 witness: a call that always fails with a 429 message makes
one attempt and fails with the quota message. -/
theorem c5_quota_error_short_circuits_witness :
    runInference (fun _ => AttemptResult.err "Error 429: rate limited")
      (AttemptResult.ok none) =
      InferenceResult.failure quotaErrorMessage 1 [] :=
  (c5_quota_error_short_circuits
    (fun _ => AttemptResult.err "Error 429: rate limited")
    (AttemptResult.ok none) 2 0 [] "Error 429: rate limited" rfl
    (by decide)).2 rfl

/-! ### C6 — bounded retries, proportional backoff, one no-image fallback -/

theorem loopGo_attempts_le (call : Nat → AttemptResult) (fuel : Nat) :
    ∀ (a : Nat) (ds : List Nat),
      (loopGo call fuel a ds).attemptsMade ≤ a + fuel := by
  induction fuel with
  | zero => intro a ds; simp [loopGo, LoopExit.attemptsMade]
  | succ n ih =>
    intro a ds
    simp only [loopGo]
    cases hc : call (a + 1) with
    | ok t =>
      by_cases ht : jsTruthyStr t
      · simp [ht, LoopExit.attemptsMade]
      · simp only [ht, Bool.false_eq_true, if_false]
        have := ih (a + 1) ds
        omega
    | err m =>
      by_cases hq : isQuotaMsg m
      · simp [hq, LoopExit.attemptsMade]
      · by_cases hn : n = 0
        · subst hn
          by_cases ho : isOverloadMsg m <;>
            simp [hq, ho, LoopExit.attemptsMade]
        · simp only [hq, hn, Bool.false_eq_true, if_false, if_neg]
          have := ih (a + 1) (ds ++ [2000 * (a + 1)])
          omega

/-- Claim C6: the inference client makes at most 3 loop attempts (at most
4 calls in total, counting the optional no-image fallback); a client whose
first two attempts fail with a transient non-quota error and whose third
returns text succeeds with that text after backoff delays proportional to
the attempt number (2000·1 then 2000·2 ms); and when all three attempts
return no usable text, exactly one fallback call is made, whose empty
outcome fails the request with the empty-response error. -/
theorem c6_retry_budget_backoff_and_fallback (call : Nat → AttemptResult)
    (fb : AttemptResult) :
    (runInference call fb).calls ≤ 4 ∧
    (∀ m1 m2 t, call 1 = AttemptResult.err m1 → isQuotaMsg m1 = false →
      call 2 = AttemptResult.err m2 → isQuotaMsg m2 = false →
      call 3 = AttemptResult.ok (some t) → t ≠ "" →
      runInference call fb =
        InferenceResult.success t 3 [2000 * 1, 2000 * 2]) ∧
    ((∀ k, 1 ≤ k → k ≤ 3 →
        ∃ u, call k = AttemptResult.ok u ∧ jsTruthyStr u = false) →
      ((∀ e, fb = AttemptResult.err e →
          runInference call fb =
            InferenceResult.failure emptyResponseMessage 4 []) ∧
       (∀ s, fb = AttemptResult.ok (some s) → s ≠ "" →
          runInference call fb = InferenceResult.success s 4 []))) := by
  refine ⟨?_, ?_, ?_⟩
  · unfold runInference
    cases hl : geminiRetryLoop call with
    | gotText t a ds =>
      have ha : a ≤ 3 := by
        have h3 := loopGo_attempts_le call 3 0 []
        rw [geminiRetryLoop] at hl
        rw [hl] at h3
        simpa [LoopExit.attemptsMade] using h3
      simp [InferenceResult.calls]
      omega
    | threw m a ds =>
      have ha : a ≤ 3 := by
        have h3 := loopGo_attempts_le call 3 0 []
        rw [geminiRetryLoop] at hl
        rw [hl] at h3
        simpa [LoopExit.attemptsMade] using h3
      simp [InferenceResult.calls]
      omega
    | noText a ds =>
      have ha : a ≤ 3 := by
        have h3 := loopGo_attempts_le call 3 0 []
        rw [geminiRetryLoop] at hl
        rw [hl] at h3
        simpa [LoopExit.attemptsMade] using h3
      dsimp only
      split_ifs <;> simp [InferenceResult.calls] <;> omega
  · intro m1 m2 t h1 hq1 h2 hq2 h3 ht
    have htt : jsTruthyStr (some t) = true := by simpa [jsTruthyStr] using ht
    simp [runInference, geminiRetryLoop, loopGo, h1, hq1, h2, hq2, h3, htt]
  · intro hall
    obtain ⟨u1, hu1, ht1⟩ := hall 1 (by omega) (by omega)
    obtain ⟨u2, hu2, ht2⟩ := hall 2 (by omega) (by omega)
    obtain ⟨u3, hu3, ht3⟩ := hall 3 (by omega) (by omega)
    have hloop : geminiRetryLoop call = LoopExit.noText 3 [] := by
      simp [geminiRetryLoop, loopGo, hu1, hu2, hu3, ht1, ht2, ht3]
    constructor
    · intro e hfb
      unfold runInference
      rw [hloop, hfb]
      simp [jsTruthyStr]
    · intro s hfb hs
      unfold runInference
      rw [hloop, hfb]
      simp [jsTruthyStr, hs]

/-- Claim C6 witness: a client failing twice with 503 then succeeding
returns the third reply with delays 2000 and 4000 ms, and a client always
returning empty text with a failing fallback makes 4 calls and fails with
the empty-response error. -/
theorem c6_retry_budget_backoff_and_fallback_witness :
    runInference
      (fun n => if n = 3 then AttemptResult.ok (some "réponse")
        else AttemptResult.err "503 Service Unavailable")
      (AttemptResult.ok none) =
      InferenceResult.success "réponse" 3 [2000 * 1, 2000 * 2] ∧
    runInference (fun _ => AttemptResult.ok none)
      (AttemptResult.err "network down") =
      InferenceResult.failure emptyResponseMessage 4 [] := by
  constructor
  · exact (c6_retry_budget_backoff_and_fallback
      (fun n => if n = 3 then AttemptResult.ok (some "réponse")
        else AttemptResult.err "503 Service Unavailable")
      (AttemptResult.ok none)).2.1
      "503 Service Unavailable" "503 Service Unavailable" "réponse"
      rfl (by decide) rfl (by decide) rfl (by decide)
  · exact ((c6_retry_budget_backoff_and_fallback
      (fun _ => AttemptResult.ok none)
      (AttemptResult.err "network down")).2.2
      (fun k _ _ => ⟨none, rfl, rfl⟩)).1 "network down" rfl

/-! ### C8 — fence stripping, brace slicing, invalid-format failure -/

theorem exists_three (l : List Char) (h : 3 ≤ l.length) :
    ∃ a b c r, l = a :: b :: c :: r := by
  match l with
  | a :: b :: c :: r => exact ⟨a, b, c, r, rfl⟩
  | [] => simp at h
  | [a] => simp at h
  | [a, b] => simp at h

theorem stripTicks_short (l : List Char) (h : l.length < 3) :
    stripTicks l = l := by
  rw [stripTicks.eq_def]
  split
  · rename_i c1 c2 c3 rest
    simp at h
    omega
  · rfl

theorem ticks_data : "```".data = [btick, btick, btick] := by decide

theorem stripTicks_append (xs ys : List Char) (hx : ∀ c ∈ xs, c ≠ btick) :
    stripTicks (xs ++ ys) = xs ++ stripTicks ys := by
  induction xs with
  | nil => simp
  | cons c xs ih =>
    have hc : c ≠ btick := hx c (by simp)
    have hx2 : ∀ d ∈ xs, d ≠ btick := fun d hd => hx d (by simp [hd])
    rw [List.cons_append, stripTicks.eq_def]
    split
    · rename_i c1 c2 c3 rest heq
      have h1 : c = c1 := (List.cons.inj heq).1
      have hrest : xs ++ ys = c2 :: c3 :: rest := (List.cons.inj heq).2
      rw [if_neg ?_]
      · rw [← hrest, ih hx2, h1]
        simp
      · rw [ticks_data]
        intro habs
        exact hc (h1.trans (List.cons.inj habs).1)
    · rename_i hno
      have hlen : (c :: (xs ++ ys)).length < 3 := by
        by_contra hge
        push_neg at hge
        obtain ⟨a, b, c2, r, hdec⟩ := exists_three _ hge
        exact hno a b c2 r hdec
      have hys : ys.length < 3 := by
        simp at hlen
        omega
      rw [stripTicks_short ys hys]
      simp

theorem exists_seven (l : List Char) (h : 7 ≤ l.length) :
    ∃ a b c d e f g r, l = a :: b :: c :: d :: e :: f :: g :: r := by
  match l with
  | a :: b :: c :: d :: e :: f :: g :: r => exact ⟨a, b, c, d, e, f, g, r, rfl⟩
  | [] => simp at h
  | [_] => simp at h
  | [_, _] => simp at h
  | [_, _, _] => simp at h
  | [_, _, _, _] => simp at h
  | [_, _, _, _, _] => simp at h
  | [_, _, _, _, _, _] => simp at h

theorem exists_eight (l : List Char) (h : 8 ≤ l.length) :
    ∃ a b c d e f g i r, l = a :: b :: c :: d :: e :: f :: g :: i :: r := by
  match l with
  | a :: b :: c :: d :: e :: f :: g :: i :: r =>
    exact ⟨a, b, c, d, e, f, g, i, r, rfl⟩
  | [] => simp at h
  | [_] => simp at h
  | [_, _] => simp at h
  | [_, _, _] => simp at h
  | [_, _, _, _] => simp at h
  | [_, _, _, _, _] => simp at h
  | [_, _, _, _, _, _] => simp at h
  | [_, _, _, _, _, _, _] => simp at h

theorem stripJsonFences_short (l : List Char) (h : l.length < 7) :
    stripJsonFences l = l := by
  rw [stripJsonFences.eq_def]
  split
  · rename_i c1 c2 c3 c4 c5 c6 c7 c8 rest
    simp at h
    omega
  · rename_i c1 c2 c3 c4 c5 c6 c7
    simp at h
  · rfl

theorem fence_data :
    "```json".data = [btick, btick, btick, 'j', 's', 'o', 'n'] := by decide

theorem stripJsonFences_append (xs ys : List Char)
    (hx : ∀ c ∈ xs, c ≠ btick) :
    stripJsonFences (xs ++ ys) = xs ++ stripJsonFences ys := by
  induction xs with
  | nil => simp
  | cons c xs ih =>
    have hc : c ≠ btick := hx c (by simp)
    have hx2 : ∀ d ∈ xs, d ≠ btick := fun d hd => hx d (by simp [hd])
    rw [List.cons_append, stripJsonFences.eq_def]
    split
    · rename_i c1 c2 c3 c4 c5 c6 c7 c8 rest heq
      have h1 : c = c1 := (List.cons.inj heq).1
      have hrest : xs ++ ys = c2 :: c3 :: c4 :: c5 :: c6 :: c7 :: c8 :: rest :=
        (List.cons.inj heq).2
      rw [if_neg ?_]
      · rw [← hrest, ih hx2, h1]
        simp
      · rw [fence_data]
        intro habs
        exact hc (h1.trans (List.cons.inj habs).1)
    · rename_i c1 c2 c3 c4 c5 c6 c7 heq
      have h1 : c = c1 := (List.cons.inj heq).1
      have hlen7 : (c :: (xs ++ ys)).length = 7 := by
        rw [heq]
        simp
      have hys : ys.length < 7 := by
        simp at hlen7
        omega
      rw [if_neg ?_]
      · rw [← heq, stripJsonFences_short ys hys]
        simp
      · rw [fence_data]
        intro habs
        exact hc (h1.trans (List.cons.inj habs).1)
    · rename_i hno8 hno7
      have hlen : (c :: (xs ++ ys)).length < 7 := by
        by_contra hge
        push_neg at hge
        rcases Nat.lt_or_ge (c :: (xs ++ ys)).length 8 with h8 | h8
        · obtain ⟨a, b, c2, d, e, f, g, r, hdec⟩ := exists_seven _ hge
          have hr : r = [] := by
            rw [hdec] at h8
            simp at h8
            exact List.eq_nil_of_length_eq_zero (by omega)
          rw [hr] at hdec
          exact hno7 a b c2 d e f g hdec
        · obtain ⟨a, b, c2, d, e, f, g, i, r, hdec⟩ := exists_eight _ h8
          exact hno8 a b c2 d e f g i r hdec
      have hys : ys.length < 7 := by
        simp at hlen
        omega
      rw [stripJsonFences_short ys hys]
      simp

theorem stripJsonFences_fence_head (X : List Char) :
    stripJsonFences ("```json\n".data ++ X) = stripJsonFences X := rfl

theorem stripJsonFences_ticks (X : List Char) (hx : ∀ c ∈ X, c ≠ btick) :
    stripJsonFences (X ++ "```".data) = X ++ "```".data := by
  rw [stripJsonFences_append X "```".data hx,
    stripJsonFences_short "```".data (by decide)]

theorem stripTicks_trailing (X : List Char) (hx : ∀ c ∈ X, c ≠ btick) :
    stripTicks (X ++ "```".data) = X := by
  rw [stripTicks_append X "```".data hx]
  have : stripTicks "```".data = [] := by decide
  rw [this, List.append_nil]

theorem dropWhile_append_stop (p : Char → Bool) (A : List Char) (c : Char)
    (R : List Char) (hc : p c = false) :
    ∃ A2, (∀ x ∈ A2, x ∈ A) ∧
      (A ++ c :: R).dropWhile p = A2 ++ c :: R := by
  induction A with
  | nil =>
    refine ⟨[], by simp, ?_⟩
    simp [List.dropWhile_cons, hc]
  | cons a as ih =>
    by_cases hpa : p a
    · obtain ⟨A2, hsub, hdrop⟩ := ih
      refine ⟨A2, fun x hx => by simp [hsub x hx], ?_⟩
      simp [List.dropWhile_cons, hpa, hdrop]
    · refine ⟨a :: as, by simp, ?_⟩
      simp [List.dropWhile_cons, hpa]

theorem jsTrim_keeps_braces (A M B : List Char)
    (hA : lbrace ∉ A) (hB : rbrace ∉ B) :
    ∃ A2 B2, jsTrim (A ++ lbrace :: (M ++ rbrace :: B)) =
        A2 ++ lbrace :: (M ++ rbrace :: B2) ∧ lbrace ∉ A2 ∧ rbrace ∉ B2 := by
  obtain ⟨A2, hsubA, hdropA⟩ :=
    dropWhile_append_stop jsSpace A lbrace (M ++ rbrace :: B) (by decide)
  unfold jsTrim
  rw [hdropA]
  have hrev : (A2 ++ lbrace :: (M ++ rbrace :: B)).reverse =
      B.reverse ++ rbrace :: (M.reverse ++ lbrace :: A2.reverse) := by
    simp
  rw [hrev]
  obtain ⟨B2r, hsubB, hdropB⟩ :=
    dropWhile_append_stop jsSpace B.reverse rbrace
      (M.reverse ++ lbrace :: A2.reverse) (by decide)
  rw [hdropB]
  refine ⟨A2, B2r.reverse, ?_, ?_, ?_⟩
  · simp
  · exact fun hx => hA (hsubA _ hx)
  · intro hx
    have : rbrace ∈ B.reverse := hsubB _ (List.mem_reverse.mp hx)
    exact hB (List.mem_reverse.mp this)

theorem findIdx?_skip (p : Char → Bool) (A : List Char) (c : Char)
    (R : List Char) (i : Nat) (hA : ∀ x ∈ A, p x = false) (hc : p c = true) :
    (A ++ c :: R).findIdx? p i = some (i + A.length) := by
  induction A generalizing i with
  | nil => simp [hc]
  | cons a as ih =>
    have hpa : p a = false := hA a (by simp)
    have hrec := ih (i + 1) (fun x hx => hA x (by simp [hx]))
    simp only [List.cons_append, List.findIdx?_cons, hpa, Bool.false_eq_true,
      if_false, hrec]
    congr 1
    simp
    omega

theorem slice_braces (A M B : List Char) (hA : lbrace ∉ A) (hB : rbrace ∉ B) :
    firstIdxOf lbrace (A ++ lbrace :: (M ++ rbrace :: B)) = some A.length ∧
    lastIdxOf rbrace (A ++ lbrace :: (M ++ rbrace :: B)) =
      some (A.length + M.length + 1) ∧
    jsSubstring (A ++ lbrace :: (M ++ rbrace :: B)) A.length
      (A.length + M.length + 1 + 1) = lbrace :: (M ++ [rbrace]) := by
  refine ⟨?_, ?_, ?_⟩
  · unfold firstIdxOf
    have := findIdx?_skip (fun x => x = lbrace) A lbrace (M ++ rbrace :: B) 0
      (fun x hx => by
        simp only [decide_eq_false_iff_not]
        exact fun h => hA (h ▸ hx))
      (by simp)
    simpa using this
  · unfold lastIdxOf
    have hrev : (A ++ lbrace :: (M ++ rbrace :: B)).reverse =
        B.reverse ++ rbrace :: (M.reverse ++ lbrace :: A.reverse) := by
      simp
    rw [hrev]
    have := findIdx?_skip (fun x => x = rbrace) B.reverse rbrace
      (M.reverse ++ lbrace :: A.reverse) 0
      (fun x hx => by
        simp only [decide_eq_false_iff_not]
        exact fun h => hB (List.mem_reverse.mp (h ▸ hx)))
      (by simp)
    rw [this]
    have hlen : (A ++ lbrace :: (M ++ rbrace :: B)).length =
        A.length + M.length + B.length + 2 := by
      simp
      omega
    rw [hlen]
    simp
    omega
  · unfold jsSubstring
    dsimp only
    have hlen : (A ++ lbrace :: (M ++ rbrace :: B)).length =
        A.length + M.length + B.length + 2 := by
      simp
      omega
    rw [hlen]
    have hmin1 : min A.length (A.length + M.length + B.length + 2) =
        A.length := by omega
    have hmin2 : min (A.length + M.length + 1 + 1)
        (A.length + M.length + B.length + 2) = A.length + M.length + 2 := by
      omega
    rw [hmin1, hmin2]
    have hmin3 : min A.length (A.length + M.length + 2) = A.length := by omega
    have hmax3 : max A.length (A.length + M.length + 2) =
        A.length + M.length + 2 := by omega
    rw [hmin3, hmax3]
    rw [List.drop_left]
    have harr : lbrace :: (M ++ rbrace :: B) =
        (lbrace :: (M ++ [rbrace])) ++ B := by simp
    rw [harr]
    rw [List.take_left' (by simp; omega)]

theorem cleanReply_fenced (pre mid post : String)
    (hpre : btick ∉ pre.data) (hmid : btick ∉ mid.data)
    (hpost : btick ∉ post.data)
    (hpreB : lbrace ∉ pre.data) (hpostB : rbrace ∉ post.data) :
    cleanReply ("```json\n" ++ pre ++ "\x7b" ++ mid ++ "\x7d" ++ post ++ "```") =
      "\x7b" ++ mid ++ "\x7d" := by
  have hb : "\x7b".data = [lbrace] := by decide
  have hr : "\x7d".data = [rbrace] := by decide
  have hbody : ∀ c ∈ pre.data ++ lbrace :: (mid.data ++ rbrace :: post.data),
      c ≠ btick := by
    intro c hc
    simp only [List.mem_append, List.mem_cons] at hc
    rcases hc with h | h | h
    · exact fun he => hpre (he ▸ h)
    · subst h; decide
    · rcases h with h | h
      · exact fun he => hmid (he ▸ h)
      · rcases h with h | h
        · subst h; decide
        · exact fun he => hpost (he ▸ h)
  have hdata :
      ("```json\n" ++ pre ++ "\x7b" ++ mid ++ "\x7d" ++ post ++ "```").data =
        "```json\n".data ++
          ((pre.data ++ lbrace :: (mid.data ++ rbrace :: post.data)) ++
            "```".data) := by
    simp [hb, hr]
    constructor <;> rfl
  unfold cleanReply
  rw [hdata, stripJsonFences_fence_head,
    stripJsonFences_ticks _ hbody, stripTicks_trailing _ hbody]
  obtain ⟨A2, B2, htrim, hA2, hB2⟩ :=
    jsTrim_keeps_braces pre.data mid.data post.data hpreB hpostB
  rw [htrim]
  obtain ⟨hfirst, hlast, hsub⟩ := slice_braces A2 mid.data B2 hA2 hB2
  dsimp only
  rw [hfirst, hlast]
  dsimp only
  rw [hsub]
  apply String.ext
  simp [hb, hr]
  constructor <;> rfl

/-- Claim C8: a raw reply wrapped in triple-backtick fences with
backtick-free leading prose before the first opening brace and trailing
prose after the last closing brace is cleaned by stripping the fences and
slicing to the span from the first opening to the last closing brace; and
whenever the cleaned slice fails to parse, normalization fails with the
invalid-format error (a terminal failure: the normalizer performs no
retry). -/
theorem c8_fence_stripping_slicing_and_invalid_format
    (pre mid post : String)
    (hpre : btick ∉ pre.data) (hmid : btick ∉ mid.data)
    (hpost : btick ∉ post.data)
    (hpreB : lbrace ∉ pre.data) (hpostB : rbrace ∉ post.data) :
    cleanReply ("```json\n" ++ pre ++ "\x7b" ++ mid ++ "\x7d" ++ post ++ "```") =
      "\x7b" ++ mid ++ "\x7d" ∧
    (∀ t : String, jsonParse (cleanReply t) = none →
      normalizeReply t = Except.error invalidFormatMessage) := by
  refine ⟨cleanReply_fenced pre mid post hpre hmid hpost hpreB hpostB, ?_⟩
  intro t h
  unfold normalizeReply
  rw [h]

/-- Claim C8 witness: the theorem applied to a concrete fenced reply with
leading and trailing prose, and to a concrete unparsable reply. -/
theorem c8_fence_stripping_slicing_and_invalid_format_witness :
    cleanReply ("```json\n" ++ "Voici la réponse: " ++ "\x7b" ++
        "\"code\":\"t2\"" ++ "\x7d" ++ " merci." ++ "```") =
      "\x7b" ++ "\"code\":\"t2\"" ++ "\x7d" ∧
    normalizeReply "```json\npas du json```" =
      Except.error invalidFormatMessage := by
  have h := c8_fence_stripping_slicing_and_invalid_format
    "Voici la réponse: " "\"code\":\"t2\"" " merci."
    (by decide) (by decide) (by decide) (by decide) (by decide)
  exact ⟨h.1, h.2 "```json\npas du json```" rfl⟩

/-! ### C3, C4, C7 — record synthesis -/

theorem lookup_filter_self (fs : List (String × Json)) (k : String) :
    List.lookup k (fs.filter (fun p => p.1 ≠ k)) = none := by
  rw [List.lookup_eq_none_iff]
  intro p hp
  rw [List.mem_filter] at hp
  have := hp.2
  simp only [ne_eq, decide_not, Bool.not_eq_eq_eq_not, Bool.not_true,
    decide_eq_false_iff_not] at this
  simpa using fun he => this he.symm

theorem lookup_filter_other (fs : List (String × Json)) (k k2 : String)
    (h : k2 ≠ k) :
    List.lookup k2 (fs.filter (fun p => p.1 ≠ k)) = List.lookup k2 fs := by
  induction fs with
  | nil => simp
  | cons p fs ih =>
    obtain ⟨a, b⟩ := p
    by_cases ha : a = k
    · subst ha
      have hne : (k2 == a) = false := beq_eq_false_iff_ne.mpr h
      simp only [ne_eq, decide_not] at ih
      simp [List.filter_cons, List.lookup_cons, hne, ih]
    · by_cases hk2 : k2 = a
      · subst hk2
        simp [List.filter_cons, ha, List.lookup_cons]
      · have hne2 : (k2 == a) = false := beq_eq_false_iff_ne.mpr hk2
        simp only [ne_eq, decide_not] at ih
        simp [List.filter_cons, ha, List.lookup_cons, hne2, ih]

theorem lookup_setField_same (fs : List (String × Json)) (k : String)
    (v : Json) : List.lookup k (setField fs k v) = some v := by
  unfold setField
  rw [List.lookup_append, lookup_filter_self]
  simp

theorem lookup_setField_other (fs : List (String × Json)) (k k2 : String)
    (v : Json) (h : k2 ≠ k) :
    List.lookup k2 (setField fs k v) = List.lookup k2 fs := by
  unfold setField
  rw [List.lookup_append, lookup_filter_other fs k k2 h]
  have hne : (k2 == k) = false := by
    simp only [beq_eq_false_iff_ne, ne_eq]
    exact h
  simp [List.lookup_cons, hne]

theorem lookup_buildResult_coords (data : Json) (lat lng : ℚ) :
    List.lookup "coords" (buildResult data lat lng) =
      some (Json.obj [("lat", Json.num lat), ("lng", Json.num lng)]) := by
  unfold buildResult
  rw [lookup_setField_other _ _ _ _ (by decide), lookup_setField_same]

theorem lookup_buildResult_sources (data : Json) (lat lng : ℚ) :
    List.lookup "sources" (buildResult data lat lng) = some (Json.arr []) := by
  unfold buildResult
  rw [lookup_setField_same]

theorem lookup_buildResult_other (data : Json) (lat lng : ℚ) (k : String)
    (h1 : k ≠ "coords") (h2 : k ≠ "sources") :
    List.lookup k (buildResult data lat lng) =
      List.lookup k (fieldsOf data) := by
  unfold buildResult
  rw [lookup_setField_other _ _ _ _ h2, lookup_setField_other _ _ _ _ h1]

theorem handlerPipeline_success_shape (call : Nat → AttemptResult)
    (fb : AttemptResult) (lat lng : ℚ) (wmsData : Option WMSData)
    (t : String) (a : Nat) (ds : List Nat) (data : Json)
    (hrun : runInference call fb = InferenceResult.success t a ds)
    (hparse : jsonParse (cleanReply t) = some data) :
    handlerPipeline call fb lat lng wmsData =
      Except.ok (buildResult data lat lng) := by
  unfold handlerPipeline
  dsimp only
  rw [hrun]
  dsimp only
  unfold normalizeReply
  rw [hparse]

theorem extractEvidence_wms_cases (w : WMSData) :
    (extractEvidence (some w)).wms = some w ∨
    (extractEvidence (some w)).wms = some { w with rawResponse := "" } := by
  unfold extractEvidence
  dsimp only
  split_ifs with h1 h2
  · exact Or.inr rfl
  · exact Or.inl rfl
  · exact Or.inl rfl

theorem extractEvidence_manualCode (w : WMSData) :
    ((extractEvidence (some w)).wms).bind WMSData.manualCode =
      w.manualCode := by
  rcases extractEvidence_wms_cases w with h | h <;> simp [h]

/-- Claim C7: the emitted record is the parsed reply object with `coords`
set to the original request coordinate (never derived from the reply) and
an initially empty `sources` list; the record's `code` is exactly the
parsed reply's `code` — extracted-code divergence is informational only
and never force-overwrites it (the record does not depend on the evidence
payload at all once the reply is parsed). -/
theorem c7_record_coords_sources_and_no_code_overwrite
    (call : Nat → AttemptResult) (fb : AttemptResult) (lat lng : ℚ)
    (wmsData : Option WMSData) (t : String) (a : Nat) (ds : List Nat)
    (data : Json)
    (hrun : runInference call fb = InferenceResult.success t a ds)
    (hparse : jsonParse (cleanReply t) = some data) :
    handlerPipeline call fb lat lng wmsData =
      Except.ok (buildResult data lat lng) ∧
    List.lookup "coords" (buildResult data lat lng) =
      some (Json.obj [("lat", Json.num lat), ("lng", Json.num lng)]) ∧
    List.lookup "sources" (buildResult data lat lng) = some (Json.arr []) ∧
    List.lookup "code" (buildResult data lat lng) =
      List.lookup "code" (fieldsOf data) :=
  ⟨handlerPipeline_success_shape call fb lat lng wmsData t a ds data hrun
      hparse,
    lookup_buildResult_coords data lat lng,
    lookup_buildResult_sources data lat lng,
    lookup_buildResult_other data lat lng "code" (by decide) (by decide)⟩

/-- Claim C7 witness: a concrete run whose reply carries its own `coords`
value still gets the request coordinate, an empty `sources` list, and the
reply's own code. -/
theorem c7_record_coords_sources_and_no_code_overwrite_witness :
    handlerPipeline
      (fun _ => AttemptResult.ok
        (some "\x7b\"code\":\"n3\",\"coords\":\"bogus\"\x7d"))
      (AttemptResult.ok none) 46 3 (some (WMSData.mk "raw" none none)) =
      Except.ok [("code", Json.str "n3"),
        ("coords", Json.obj [("lat", Json.num 46), ("lng", Json.num 3)]),
        ("sources", Json.arr [])] ∧
    List.lookup "coords"
      (buildResult (Json.obj [("code", Json.str "n3"),
        ("coords", Json.str "bogus")]) 46 3) =
      some (Json.obj [("lat", Json.num 46), ("lng", Json.num 3)]) := by
  have h := c7_record_coords_sources_and_no_code_overwrite
    (fun _ => AttemptResult.ok
      (some "\x7b\"code\":\"n3\",\"coords\":\"bogus\"\x7d"))
    (AttemptResult.ok none) 46 3 (some (WMSData.mk "raw" none none))
    "\x7b\"code\":\"n3\",\"coords\":\"bogus\"\x7d" 1 []
    (Json.obj [("code", Json.str "n3"), ("coords", Json.str "bogus")])
    rfl rfl
  exact ⟨h.1, h.2.1⟩

/-- Claim C3 counterexample: a parsed reply missing `lithology` (and every
other mandatory field except `code`) is returned as a record with a 200
response — no `INCOMPLETE_RECORD` failure exists and the partial record is
returned to the caller. -/
theorem c3_counterexample_partial_record_returned :
    handlerPipeline (fun _ => AttemptResult.ok (some "\x7b\"code\":\"t2\"\x7d"))
      (AttemptResult.ok none) 46 2 none =
      Except.ok [("code", Json.str "t2"),
        ("coords", Json.obj [("lat", Json.num 46), ("lng", Json.num 2)]),
        ("sources", Json.arr [])] ∧
    List.lookup "lithology"
      ([("code", Json.str "t2"),
        ("coords", Json.obj [("lat", Json.num 46), ("lng", Json.num 2)]),
        ("sources", Json.arr [])] : List (String × Json)) = none :=
  ⟨rfl, rfl⟩

/-- Claim C3 (amended): the handler performs no mandatory-field
validation: every reply that parses is emitted as the record, even when
`lithology` (or any other mandatory field) is absent; the record then
simply lacks that field, and no incomplete-record failure is ever
produced. -/
theorem c3_no_mandatory_field_validation
    (call : Nat → AttemptResult) (fb : AttemptResult) (lat lng : ℚ)
    (wmsData : Option WMSData) (t : String) (a : Nat) (ds : List Nat)
    (data : Json)
    (hrun : runInference call fb = InferenceResult.success t a ds)
    (hparse : jsonParse (cleanReply t) = some data)
    (hmissing : List.lookup "lithology" (fieldsOf data) = none) :
    handlerPipeline call fb lat lng wmsData =
      Except.ok (buildResult data lat lng) ∧
    List.lookup "lithology" (buildResult data lat lng) = none := by
  refine ⟨handlerPipeline_success_shape call fb lat lng wmsData t a ds data
    hrun hparse, ?_⟩
  rw [lookup_buildResult_other data lat lng "lithology" (by decide)
    (by decide)]
  exact hmissing

/-- Claim C3 witness: the amended theorem applied to a concrete reply
missing `lithology`. -/
theorem c3_no_mandatory_field_validation_witness :
    handlerPipeline (fun _ => AttemptResult.ok (some "\x7b\"code\":\"t2\"\x7d"))
      (AttemptResult.ok none) 46 2 none =
      Except.ok (buildResult (Json.obj [("code", Json.str "t2")]) 46 2) ∧
    List.lookup "lithology"
      (buildResult (Json.obj [("code", Json.str "t2")]) 46 2) = none :=
  c3_no_mandatory_field_validation
    (fun _ => AttemptResult.ok (some "\x7b\"code\":\"t2\"\x7d"))
    (AttemptResult.ok none) 46 2 none "\x7b\"code\":\"t2\"\x7d" 1 []
    (Json.obj [("code", Json.str "t2")]) rfl rfl rfl

/-- Claim C4 counterexample: with manualCode "J9ad" the ManualOverride
case is selected, but when the parsed reply answers code "n3" the emitted
record's code is "n3", not "J9ad" — the record's code is not "J9ad"
regardless of the inference reply. -/
theorem c4_counterexample_reply_code_wins :
    resolutionOf (some (WMSData.mk "" none (some "J9ad"))) =
      ResolutionCase.manualOverride "J9ad" ∧
    handlerPipeline (fun _ => AttemptResult.ok (some "\x7b\"code\":\"n3\"\x7d"))
      (AttemptResult.ok none) 46 2 (some (WMSData.mk "" none (some "J9ad"))) =
      Except.ok [("code", Json.str "n3"),
        ("coords", Json.obj [("lat", Json.num 46), ("lng", Json.num 2)]),
        ("sources", Json.arr [])] ∧
    List.lookup "code"
      ([("code", Json.str "n3"),
        ("coords", Json.obj [("lat", Json.num 46), ("lng", Json.num 2)]),
        ("sources", Json.arr [])] : List (String × Json)) =
      some (Json.str "n3") ∧
    "n3" ≠ "J9ad" :=
  ⟨rfl, rfl, rfl, by decide⟩

/-- Claim C4 (amended): for every request carrying manualCode "J9ad",
whatever the rawText, the ManualOverride case is selected with code
"J9ad"; the emitted record's code equals the parsed reply's code — so it
equals "J9ad" exactly when the reply's code field is "J9ad" (which the
instruction block demands), not regardless of the reply's content. -/
theorem c4_manual_override_selected_code_follows_reply
    (w : WMSData) (hm : w.manualCode = some "J9ad")
    (call : Nat → AttemptResult) (fb : AttemptResult) (lat lng : ℚ)
    (t : String) (a : Nat) (ds : List Nat) (data : Json)
    (hrun : runInference call fb = InferenceResult.success t a ds)
    (hparse : jsonParse (cleanReply t) = some data) :
    resolutionOf (some w) = ResolutionCase.manualOverride "J9ad" ∧
    handlerPipeline call fb lat lng (some w) =
      Except.ok (buildResult data lat lng) ∧
    (List.lookup "code" (fieldsOf data) = some (Json.str "J9ad") →
      List.lookup "code" (buildResult data lat lng) =
        some (Json.str "J9ad")) := by
  refine ⟨?_, handlerPipeline_success_shape call fb lat lng (some w) t a ds
    data hrun hparse, ?_⟩
  · unfold resolutionOf
    dsimp only
    unfold selectCase
    dsimp only
    rw [extractEvidence_manualCode w, hm]
    simp [jsTruthyStr]
  · intro hcode
    rw [lookup_buildResult_other data lat lng "code" (by decide) (by decide)]
    exact hcode

/-- Claim C4 witness: the amended theorem applied to a concrete request
with manualCode "J9ad" and a compliant reply. -/
theorem c4_manual_override_selected_code_follows_reply_witness :
    resolutionOf (some (WMSData.mk "any raw" none (some "J9ad"))) =
      ResolutionCase.manualOverride "J9ad" ∧
    List.lookup "code"
      (buildResult (Json.obj [("code", Json.str "J9ad")]) 46 2) =
      some (Json.str "J9ad") := by
  have h := c4_manual_override_selected_code_follows_reply
    (WMSData.mk "any raw" none (some "J9ad")) rfl
    (fun _ => AttemptResult.ok (some "\x7b\"code\":\"J9ad\"\x7d"))
    (AttemptResult.ok none) 46 2 "\x7b\"code\":\"J9ad\"\x7d" 1 []
    (Json.obj [("code", Json.str "J9ad")]) rfl rfl
  exact ⟨h.1, h.2.2 rfl⟩

end GeoFrance
